import Mathlib

set_option maxRecDepth 10000

/-!
Verification of the layered crash-consistency model of `fuzz/fuzz_targets/simple_model.rs`.

The model is a sequence of layers (oldest first); each layer stores, per key,
`none` (untouched), `some none` (deleted) or `some (some v)` (set to `v`),
plus a durability flag `written`.  Keys and values are bytes in the source;
here they are naturals, with the key alphabet `0 .. 255`.
-/

/-- Size of the key alphabet (`NUMBER_OF_POSSIBLE_KEYS` in the source). -/
def NUMBER_OF_POSSIBLE_KEYS : Nat := 256

/-- One recorded batch: per-key entry plus the durability flag (`struct Layer`). -/
structure Layer where
  values : Nat → Option (Option Nat)
  written : Bool

/-- A model is an ordered sequence of layers, oldest first (`type Model = Vec<Layer>`). -/
abbrev Model := List Layer

/-- The all-untouched per-key array (`[None; NUMBER_OF_POSSIBLE_KEYS]`). -/
def emptyValues : Nat → Option (Option Nat) := fun _ => none

/-- One step of the batch-recording loop: `values[usize::from(*k)] = Some(*v)`. -/
def writeOp (values : Nat → Option (Option Nat)) (op : Nat × Option Nat) :
    Nat → Option (Option Nat) :=
  fun k => if k = op.1 then some op.2 else values k

/-- Record a batch: build the per-key array from the operations (later operations on
the same key win) and push a new non-durable layer (`apply_operations_on_model`). -/
def apply_operations_on_model (operations : List (Nat × Option Nat)) (model : Model) :
    Model :=
  model ++ [⟨operations.foldl writeOp emptyValues, false⟩]

/-- Mark durable: scan oldest-to-newest and set `written` on the first layer that is
not yet written, then stop (`write_first_layer_to_disk`). -/
def write_first_layer_to_disk : Model → Model
  | [] => []
  | layer :: rest =>
    if layer.written then layer :: write_first_layer_to_disk rest
    else ⟨layer.values, true⟩ :: rest

/-- Scan a newest-first list of layers for the first layer defining key `k`,
returning that layer's entry together with its `written` flag: the inner
newest-to-oldest scan-and-break loop shared by the resolver's equality check and
the content projections. -/
def find_defining : List Layer → Nat → Option (Option Nat × Bool)
  | [], _ => none
  | layer :: older, k =>
    match layer.values k with
    | some v => some (v, layer.written)
    | none => find_defining older k

/-- The `expected` array built from the observed state
(`for (k, v) in state { values[usize::from(*k)] = Some(*v) }`). -/
def buildExpected (state : List (Nat × Nat)) : Nat → Option Nat :=
  state.foldl (fun acc kv => fun k => if k = kv.1 then some kv.2 else acc k)
    (fun _ => none)

/-- The `is_equal` check of `attempt_to_reset_model_to_disk_state`: for every key of
the alphabet, if some layer defines the key then the newest defining entry must equal
the expected value; a key no layer defines is not checked. -/
def isEqualState (layersNewestFirst : List Layer) (expected : Nat → Option Nat) : Bool :=
  (List.range NUMBER_OF_POSSIBLE_KEYS).all fun k =>
    match find_defining layersNewestFirst k with
    | some vw => decide (vw.1 = expected k)
    | none => true

/-- The `while !model.is_empty()` loop of `attempt_to_reset_model_to_disk_state`,
on the newest-first view of the clone: a non-durable last layer is popped without
check; a durable last layer is kept if the equality check passes and popped
otherwise; the empty clone succeeds exactly when the observed state is empty. -/
def reconcileLoop : List Layer → (Nat → Option Nat) → Bool → Option (List Layer)
  | [], _, stateIsEmpty => if stateIsEmpty then some [] else none
  | last :: older, expected, stateIsEmpty =>
    if last.written then
      if isEqualState (last :: older) expected then some (last :: older)
      else reconcileLoop older expected stateIsEmpty
    else reconcileLoop older expected stateIsEmpty

/-- The resolver `attempt_to_reset_model_to_disk_state(model, state)`: run the search
loop on a private copy of the model and return the surviving oldest-first model. -/
def attempt_to_reset_model_to_disk_state (model : Model) (state : List (Nat × Nat)) :
    Option Model :=
  (reconcileLoop model.reverse (buildExpected state) state.isEmpty).map List.reverse

/-- Required content: for each key of the alphabet whose newest defining layer sets a
value, emit the singleton-encoded pair (`model_required_content`). -/
def model_required_content (model : Model) : List (List Nat × List Nat) :=
  (List.range NUMBER_OF_POSSIBLE_KEYS).filterMap fun k =>
    match find_defining model.reverse k with
    | some (some v, _) => some ([k], [v])
    | _ => none

/-- Optional content (`model_optional_content`, textually identical to
`model_required_content` in the source). -/
def model_optional_content (model : Model) : List (List Nat × List Nat) :=
  (List.range NUMBER_OF_POSSIBLE_KEYS).filterMap fun k =>
    match find_defining model.reverse k with
    | some (some v, _) => some ([k], [v])
    | _ => none

/-- Removed content: keys whose newest defining layer marks a deletion and is not
yet durable (`model_removed_content`). -/
def model_removed_content (model : Model) : List (List Nat) :=
  (List.range NUMBER_OF_POSSIBLE_KEYS).filterMap fun k =>
    match find_defining model.reverse k with
    | some (none, false) => some [k]
    | _ => none

/-- Effective state of a model (spec section 3 invariant): for each key, the newest
layer whose entry is not untouched decides; `some v` when set, `none` when deleted
or when no layer defines the key. -/
def effStateOf (model : Model) (k : Nat) : Option Nat :=
  match find_defining model.reverse k with
  | some (some v, _) => some v
  | _ => none

/-- Reference side of the refinement claim: apply a single operation to a plain
per-key mapping (set on `some v`, delete on `none`). -/
def applyOpToMap (st : Nat → Option Nat) (op : Nat × Option Nat) : Nat → Option Nat :=
  fun k => if k = op.1 then op.2 else st k

/-- Reference side: replay one batch, operation by operation, last write wins. -/
def replayBatch (st : Nat → Option Nat) (ops : List (Nat × Option Nat)) :
    Nat → Option Nat :=
  ops.foldl applyOpToMap st

/-- Reference side: replay every batch in order against the empty mapping. -/
def referenceReplay (batches : List (List (Nat × Option Nat))) : Nat → Option Nat :=
  batches.foldl replayBatch (fun _ => none)

/-- Record every batch of the list in order, starting from the empty model. -/
def buildModel (batches : List (List (Nat × Option Nat))) : Model :=
  batches.foldl (fun m b => apply_operations_on_model b m) []

/-- One harness action: record a batch or mark a layer durable. -/
inductive FuzzAction where
  | batch (ops : List (Nat × Option Nat))
  | markDurable

/-- Apply one harness action to the model. -/
def stepAction (model : Model) : FuzzAction → Model
  | .batch ops => apply_operations_on_model ops model
  | .markDurable => write_first_layer_to_disk model

/-- Run a sequence of harness actions starting from the empty model. -/
def runActions (actions : List FuzzAction) : Model :=
  actions.foldl stepAction []

/-- Number of mark-durable calls in an action sequence. -/
def markCount (actions : List FuzzAction) : Nat :=
  actions.countP fun a => match a with | .markDurable => true | _ => false

/-- The sequence of durability flags of a model, oldest first. -/
def layerFlags (model : Model) : List Bool :=
  model.map fun layer => layer.written

/-- Number of durable layers of a model. -/
def countWritten (model : Model) : Nat :=
  (layerFlags model).count true

/-- Durability flags of the form true, ..., true, false, ..., false: the durable
layers form a contiguous prefix of the layer sequence. -/
def flagsContiguous (fs : List Bool) : Prop :=
  ∃ a b, fs = List.replicate a true ++ List.replicate b false

/-- Action of `write_first_layer_to_disk` on the flag sequence alone. -/
def markFirstFlag : List Bool → List Bool
  | [] => []
  | true :: rest => true :: markFirstFlag rest
  | false :: rest => true :: rest

/-! Concrete scenario models used by the claims. -/

/-- Model of the first concrete scenario: record batch [(5, some 9)], mark durable,
then record batch [(5, none)] with no further durability call. -/
def modelC1 : Model :=
  apply_operations_on_model [(5, none)]
    (write_first_layer_to_disk (apply_operations_on_model [(5, some 9)] []))

/-- The 1-layer durable model of the first scenario, before the deleting batch. -/
def modelC1durable : Model :=
  write_first_layer_to_disk (apply_operations_on_model [(5, some 9)] [])

/-- Model of the second concrete scenario: record batch [(3, some 1)], never marked
durable. -/
def modelC3 : Model :=
  apply_operations_on_model [(3, some 1)] []

/-- A model with a single durable layer setting key 3 to 1. -/
def oneDurableLayerModel : Model :=
  write_first_layer_to_disk (apply_operations_on_model [(3, some 1)] [])

/-- A model with one durable layer setting key 1 to 1. -/
def modelC2 : Model :=
  write_first_layer_to_disk (apply_operations_on_model [(1, some 1)] [])

/-- An observed state whose key 2 is untouched by every layer of `modelC2`. -/
def stateC2 : List (Nat × Nat) := [(1, 1), (2, 5)]

/-- A model whose newest layers delete key 2 non-durably on top of a durable layer
setting key 1 to 7. -/
def modelC6 : Model :=
  apply_operations_on_model [(2, none)]
    (write_first_layer_to_disk (apply_operations_on_model [(1, some 7)] []))

/-- The search loop only returns the empty list or a suffix that passed the
equality check and whose newest layer is durable. -/
theorem reconcileLoop_sound (e : Nat → Option Nat) (se : Bool) :
    ∀ rev out : List Layer, reconcileLoop rev e se = some out →
      out = [] ∨ (isEqualState out e = true ∧ ∃ l t, out = l :: t ∧ l.written = true) := by
  intro rev
  induction rev with
  | nil =>
    intro out h
    cases se with
    | false => simp [reconcileLoop] at h
    | true =>
      left
      simp [reconcileLoop] at h
      exact h
  | cons last older ih =>
    intro out h
    cases hw : last.written with
    | false =>
      rw [reconcileLoop, hw] at h
      simp at h
      exact ih out h
    | true =>
      rw [reconcileLoop, hw] at h
      cases he : isEqualState (last :: older) e with
      | false =>
        rw [he] at h
        simp at h
        exact ih out h
      | true =>
        rw [he] at h
        simp at h
        right
        exact ⟨h ▸ he, last, older, h.symm, hw⟩

/-- A passed equality check pins the newest defining entry of every alphabet key to
the expected value. -/
theorem isEqualState_spec (rev : List Layer) (e : Nat → Option Nat)
    (h : isEqualState rev e = true) (k : Nat) (hk : k < NUMBER_OF_POSSIBLE_KEYS)
    (v : Option Nat) (w : Bool) (hfd : find_defining rev k = some (v, w)) : v = e k := by
  unfold isEqualState at h
  rw [List.all_eq_true] at h
  have hmem : k ∈ List.range NUMBER_OF_POSSIBLE_KEYS := List.mem_range.mpr hk
  have hp := h k hmem
  rw [hfd] at hp
  exact of_decide_eq_true hp

/-- Unpacking a successful resolver run into a successful loop run. -/
theorem attempt_unpack (model : Model) (state : List (Nat × Nat)) (r : Model)
    (h : attempt_to_reset_model_to_disk_state model state = some r) :
    ∃ out, reconcileLoop model.reverse (buildExpected state) state.isEmpty = some out ∧
      r = out.reverse := by
  unfold attempt_to_reset_model_to_disk_state at h
  rcases Option.map_eq_some'.mp h with ⟨out, hout, hr⟩
  exact ⟨out, hout, hr.symm⟩

/-- C2 (amended): on every key that some layer of the returned model defines, the
returned model's effective state equals the observed state. -/
theorem C2_thm (model : Model) (state : List (Nat × Nat)) (r : Model)
    (h : attempt_to_reset_model_to_disk_state model state = some r)
    (k : Nat) (hk : k < NUMBER_OF_POSSIBLE_KEYS)
    (hdef : (find_defining r.reverse k).isSome = true) :
    effStateOf r k = buildExpected state k := by
  obtain ⟨out, hout, hr⟩ := attempt_unpack model state r h
  have hrrev : r.reverse = out := by rw [hr, List.reverse_reverse]
  unfold effStateOf
  rw [hrrev] at hdef
  rw [hrrev]
  rcases reconcileLoop_sound _ _ _ out hout with hempty | ⟨heq, _, _, _, _⟩
  · subst hempty
    simp [find_defining] at hdef
  · rcases Option.isSome_iff_exists.mp hdef with ⟨vw, hfd⟩
    obtain ⟨v, w⟩ := vw
    have hv := isEqualState_spec out (buildExpected state) heq k hk v w hfd
    rw [hfd]
    cases v with
    | none => exact hv
    | some u => exact hv

/-- C10: a non-empty reconciliation result always ends in a durable layer. -/
theorem C10_thm (model : Model) (state : List (Nat × Nat)) (r : Model)
    (h : attempt_to_reset_model_to_disk_state model state = some r) (hne : r ≠ []) :
    ∃ l, r.getLast? = some l ∧ l.written = true := by
  obtain ⟨out, hout, hr⟩ := attempt_unpack model state r h
  rcases reconcileLoop_sound _ _ _ out hout with hempty | ⟨_, l, t, hcons, hw⟩
  · subst hempty
    simp at hr
    exact absurd hr hne
  · refine ⟨l, ?_, hw⟩
    rw [hr, hcons, List.reverse_cons, List.getLast?_concat]

/-- Pointwise agreement of the effective state with the expected array implies the
resolver's equality check passes. -/
theorem effState_implies_isEqual (m : Model) (e : Nat → Option Nat)
    (h : ∀ k, k < NUMBER_OF_POSSIBLE_KEYS → effStateOf m k = e k) :
    isEqualState m.reverse e = true := by
  unfold isEqualState
  rw [List.all_eq_true]
  intro k hkmem
  have hk := List.mem_range.mp hkmem
  have heff := h k hk
  unfold effStateOf at heff
  cases hfd : find_defining m.reverse k with
  | none => simp [hfd]
  | some vw =>
    obtain ⟨v, w⟩ := vw
    rw [hfd] at heff
    cases v with
    | none =>
      simp only [hfd]
      exact decide_eq_true heff
    | some u =>
      simp only [hfd]
      exact decide_eq_true heff

/-- The search loop never fails, and never returns a shorter history, when some
suffix of its input passes the equality check and starts with a durable layer. -/
theorem reconcileLoop_complete (e : Nat → Option Nat) (se : Bool) :
    ∀ (pre tail : List Layer) (l : Layer) (t : List Layer), tail = l :: t →
      l.written = true → isEqualState tail e = true →
      ∃ out, reconcileLoop (pre ++ tail) e se = some out ∧ tail.length ≤ out.length := by
  intro pre
  induction pre with
  | nil =>
    intro tail l t htail hw he
    subst htail
    refine ⟨l :: t, ?_, le_refl _⟩
    rw [List.nil_append, reconcileLoop, hw, he]
    rfl
  | cons p pre ih =>
    intro tail l t htail hw he
    obtain ⟨out, hout, hlen⟩ := ih tail l t htail hw he
    cases hpw : p.written with
    | false =>
      refine ⟨out, ?_, hlen⟩
      rw [List.cons_append, reconcileLoop, hpw]
      exact hout
    | true =>
      cases hpe : isEqualState (p :: (pre ++ tail)) e with
      | false =>
        refine ⟨out, ?_, hlen⟩
        rw [List.cons_append, reconcileLoop, hpw, hpe]
        exact hout
      | true =>
        refine ⟨p :: (pre ++ tail), ?_, ?_⟩
        · rw [List.cons_append, reconcileLoop, hpw, hpe]
          rfl
        · subst htail
          simp [List.length_append]
          omega

/-- C4: when some trailing truncation ends in a durable layer and its effective
state matches the observed state, the resolver succeeds with at least that
truncation's length. -/
theorem C4_thm (model : Model) (state : List (Nat × Nat)) (n : Nat)
    (hn : n ≤ model.length) (l : Layer)
    (hlast : (model.take n).getLast? = some l) (hw : l.written = true)
    (heq : ∀ k, k < NUMBER_OF_POSSIBLE_KEYS →
      effStateOf (model.take n) k = buildExpected state k) :
    ∃ r, attempt_to_reset_model_to_disk_state model state = some r ∧ n ≤ r.length := by
  have hsplit : model.reverse = (model.drop n).reverse ++ (model.take n).reverse := by
    conv_lhs => rw [← List.take_append_drop n model]
    rw [List.reverse_append]
  have hiq : isEqualState (model.take n).reverse (buildExpected state) = true :=
    effState_implies_isEqual _ _ heq
  have hhead : (model.take n).reverse.head? = some l := by
    rw [List.head?_reverse]
    exact hlast
  obtain ⟨l', t, hcons⟩ : ∃ l' t, (model.take n).reverse = l' :: t := by
    cases hrev : (model.take n).reverse with
    | nil =>
      rw [hrev] at hhead
      simp at hhead
    | cons a b => exact ⟨a, b, rfl⟩
  have hl' : l' = l := by
    rw [hcons] at hhead
    simpa using hhead
  obtain ⟨out, hout, hlen⟩ := reconcileLoop_complete (buildExpected state) state.isEmpty
    (model.drop n).reverse (model.take n).reverse l' t hcons (by rw [hl']; exact hw) hiq
  refine ⟨out.reverse, ?_, ?_⟩
  · unfold attempt_to_reset_model_to_disk_state
    rw [hsplit, hout]
    rfl
  · have htk : (model.take n).reverse.length = n := by
      rw [List.length_reverse, List.length_take]
      omega
    rw [List.length_reverse]
    omega

/-- Overlay a per-key layer array on top of a base mapping: a defined entry wins,
an untouched key falls through. -/
def overlay (f : Nat → Option (Option Nat)) (st : Nat → Option Nat) :
    Nat → Option Nat :=
  fun k => match f k with | some v => v | none => st k

/-- Folding a batch into a layer array and overlaying it equals replaying the batch
operation by operation on the base mapping. -/
theorem overlay_foldl (b : List (Nat × Option Nat)) :
    ∀ (f : Nat → Option (Option Nat)) (st : Nat → Option Nat),
      overlay (b.foldl writeOp f) st = b.foldl applyOpToMap (overlay f st) := by
  induction b with
  | nil => intro f st; rfl
  | cons op b ih =>
    intro f st
    rw [List.foldl_cons, List.foldl_cons, ih]
    have harg : overlay (writeOp f op) st = applyOpToMap (overlay f st) op := by
      funext k
      unfold overlay writeOp applyOpToMap
      by_cases hk : k = op.1 <;> simp [hk]
    rw [harg]

/-- Appending a layer overlays its array on the effective state. -/
theorem effStateOf_append (m : Model) (layer : Layer) (k : Nat) :
    effStateOf (m ++ [layer]) k = overlay layer.values (effStateOf m) k := by
  unfold effStateOf overlay
  rw [List.reverse_append]
  simp only [List.reverse_cons, List.reverse_nil, List.nil_append, List.singleton_append]
  rw [find_defining]
  cases hv : layer.values k with
  | none => rfl
  | some v => cases v <;> rfl

/-- Fold correspondence: recording batches on top of a model whose effective state
matches a mapping yields the state of replaying those batches on the mapping. -/
theorem buildFrom_replay (batches : List (List (Nat × Option Nat))) :
    ∀ (m : Model) (st : Nat → Option Nat), (∀ k, effStateOf m k = st k) →
      ∀ k, effStateOf (batches.foldl (fun m b => apply_operations_on_model b m) m) k =
        (batches.foldl replayBatch st) k := by
  induction batches with
  | nil => intro m st h k; exact h k
  | cons b batches ih =>
    intro m st h k
    rw [List.foldl_cons, List.foldl_cons]
    apply ih
    intro j
    unfold apply_operations_on_model replayBatch
    rw [effStateOf_append, overlay_foldl]
    have hbase : overlay emptyValues (effStateOf m) = effStateOf m := by
      funext i
      rfl
    rw [hbase]
    have hfun : effStateOf m = st := funext h
    rw [hfun]

/-- C5: with no crash, the layered model's effective state coincides with a plain
last-write-wins replay of the same batches. -/
theorem C5_thm (batches : List (List (Nat × Option Nat))) (k : Nat) :
    effStateOf (buildModel batches) k = referenceReplay batches k := by
  unfold buildModel referenceReplay
  exact buildFrom_replay batches [] (fun _ => none) (fun _ => rfl) k

/-- C8: the optional-content projection coincides with the required-content
projection on every model. -/
theorem C8_thm (model : Model) :
    model_optional_content model = model_required_content model := rfl

/-- C6: removed content is exactly the alphabet keys whose newest defining layer is
a non-durable deletion, and no removed key occurs among the required-content keys. -/
theorem C6_thm (model : Model) :
    (∀ k, [k] ∈ model_removed_content model ↔
      k < NUMBER_OF_POSSIBLE_KEYS ∧ find_defining model.reverse k = some (none, false)) ∧
    (∀ ks, ks ∈ model_removed_content model →
      ∀ kv, kv ∈ model_required_content model → kv.1 ≠ ks) := by
  constructor
  · intro k
    constructor
    · intro hmem
      rcases List.mem_filterMap.mp hmem with ⟨j, hj, hmatch⟩
      have hjlt := List.mem_range.mp hj
      rcases hfd : find_defining model.reverse j with _ | ⟨v, w⟩
      · rw [hfd] at hmatch
        simp at hmatch
      · rw [hfd] at hmatch
        cases v with
        | some u => simp at hmatch
        | none =>
          cases w with
          | true => simp at hmatch
          | false =>
            simp at hmatch
            subst hmatch
            exact ⟨hjlt, hfd⟩
    · intro ⟨hk, hfd⟩
      apply List.mem_filterMap.mpr
      refine ⟨k, List.mem_range.mpr hk, ?_⟩
      rw [hfd]
  · intro ks hks kv hkv
    rcases List.mem_filterMap.mp hks with ⟨j, _, hjmatch⟩
    rcases List.mem_filterMap.mp hkv with ⟨i, _, himatch⟩
    rcases hfdj : find_defining model.reverse j with _ | ⟨v, w⟩ <;> rw [hfdj] at hjmatch
    · simp at hjmatch
    · cases v with
      | some u => simp at hjmatch
      | none =>
        cases w with
        | true => simp at hjmatch
        | false =>
          simp at hjmatch
          rcases hfdi : find_defining model.reverse i with _ | ⟨v', w'⟩ <;>
            rw [hfdi] at himatch
          · simp at himatch
          · cases v' with
            | none => simp at himatch
            | some u' =>
              simp at himatch
              intro hcontra
              rw [← himatch] at hcontra
              have h1 : [i] = ks := hcontra
              rw [← hjmatch] at h1
              simp at h1
              rw [h1] at hfdi
              rw [hfdi] at hfdj
              simp at hfdj

/-- Marking the first pending layer acts on durability flags as `markFirstFlag`. -/
theorem layerFlags_write_first (m : Model) :
    layerFlags (write_first_layer_to_disk m) = markFirstFlag (layerFlags m) := by
  induction m with
  | nil => rfl
  | cons layer rest ih =>
    cases hw : layer.written with
    | false => simp [write_first_layer_to_disk, layerFlags, markFirstFlag, hw]
    | true =>
      simp [write_first_layer_to_disk, layerFlags, markFirstFlag, hw]
      exact ih

/-- Recording a batch appends a non-durable flag. -/
theorem layerFlags_apply (ops : List (Nat × Option Nat)) (m : Model) :
    layerFlags (apply_operations_on_model ops m) = layerFlags m ++ [false] := by
  simp [apply_operations_on_model, layerFlags]

/-- An all-durable flag sequence is unchanged by `markFirstFlag`. -/
theorem markFirstFlag_all_true (a : Nat) :
    markFirstFlag (List.replicate a true) = List.replicate a true := by
  induction a with
  | zero => rfl
  | succ a ih => simp [List.replicate_succ, markFirstFlag, ih]

/-- Marking the first pending flag turns the first `false` into `true`. -/
theorem markFirstFlag_mixed (a : Nat) (r : List Bool) :
    markFirstFlag (List.replicate a true ++ false :: r) =
      List.replicate a true ++ true :: r := by
  induction a with
  | zero => rfl
  | succ a ih => simp [List.replicate_succ, markFirstFlag, ih]

/-- Marking the first pending flag adds at most one durable flag. -/
theorem markFirstFlag_count (fs : List Bool) :
    (markFirstFlag fs).count true ≤ fs.count true + 1 := by
  induction fs with
  | nil => simp [markFirstFlag]
  | cons b rest ih =>
    cases b with
    | true =>
      simp only [markFirstFlag, List.count_cons]
      omega
    | false =>
      simp only [markFirstFlag, List.count_cons]
      simp

/-- Contiguity of the durable prefix is preserved by marking. -/
theorem flagsContiguous_mark (fs : List Bool) (h : flagsContiguous fs) :
    flagsContiguous (markFirstFlag fs) := by
  obtain ⟨a, b, hab⟩ := h
  subst hab
  cases b with
  | zero =>
    refine ⟨a, 0, ?_⟩
    simp [markFirstFlag_all_true]
  | succ b =>
    refine ⟨a + 1, b, ?_⟩
    rw [List.replicate_succ, markFirstFlag_mixed]
    rw [List.replicate_succ']
    simp

/-- Contiguity of the durable prefix is preserved by appending a pending flag. -/
theorem flagsContiguous_append_false (fs : List Bool) (h : flagsContiguous fs) :
    flagsContiguous (fs ++ [false]) := by
  obtain ⟨a, b, hab⟩ := h
  subst hab
  refine ⟨a, b + 1, ?_⟩
  rw [List.replicate_succ']
  simp

/-- Invariant of the action fold: contiguity is preserved and each action adds at
most one durable flag per mark-durable call. -/
theorem runActions_invariant (actions : List FuzzAction) :
    ∀ m : Model, flagsContiguous (layerFlags m) →
      flagsContiguous (layerFlags (actions.foldl stepAction m)) ∧
      countWritten (actions.foldl stepAction m) ≤ countWritten m + markCount actions := by
  induction actions with
  | nil =>
    intro m h
    exact ⟨h, by simp [markCount]⟩
  | cons a acts ih =>
    intro m h
    rw [List.foldl_cons]
    cases a with
    | batch ops =>
      have hstep : flagsContiguous (layerFlags (stepAction m (.batch ops))) := by
        rw [stepAction, layerFlags_apply]
        exact flagsContiguous_append_false _ h
      obtain ⟨hc, hcount⟩ := ih _ hstep
      refine ⟨hc, ?_⟩
      have hsame : countWritten (stepAction m (.batch ops)) = countWritten m := by
        unfold countWritten
        rw [stepAction, layerFlags_apply, List.count_append]
        simp
      have hmc : markCount (FuzzAction.batch ops :: acts) = markCount acts := by
        simp [markCount, List.countP_cons]
      omega
    | markDurable =>
      have hstep : flagsContiguous (layerFlags (stepAction m .markDurable)) := by
        rw [stepAction, layerFlags_write_first]
        exact flagsContiguous_mark _ h
      obtain ⟨hc, hcount⟩ := ih _ hstep
      refine ⟨hc, ?_⟩
      have hone : countWritten (stepAction m .markDurable) ≤ countWritten m + 1 := by
        unfold countWritten
        rw [stepAction, layerFlags_write_first]
        exact markFirstFlag_count _
      have hmc : markCount (FuzzAction.markDurable :: acts) = markCount acts + 1 := by
        simp [markCount, List.countP_cons]
      omega

/-- C7 (amended): starting from the empty model, the durable layers always form a
contiguous prefix, and their number is at most the number of mark-durable calls and
at most the number of layers. -/
theorem C7_thm (actions : List FuzzAction) :
    flagsContiguous (layerFlags (runActions actions)) ∧
    countWritten (runActions actions) ≤ markCount actions ∧
    countWritten (runActions actions) ≤ (runActions actions).length := by
  obtain ⟨hc, hcount⟩ := runActions_invariant actions [] ⟨0, 0, rfl⟩
  refine ⟨hc, ?_, ?_⟩
  · simpa [runActions, countWritten, layerFlags] using hcount
  · unfold countWritten
    calc (layerFlags (runActions actions)).count true
        ≤ (layerFlags (runActions actions)).length := List.count_le_length _ _
      _ = (runActions actions).length := by simp [layerFlags]

/-- C1 counterexample: in the first concrete scenario, reconciling against the empty
observed state does not fail; the loop also drops the non-matching durable layer and
accepts the empty model for the empty state. -/
theorem C1_counterexample :
    attempt_to_reset_model_to_disk_state modelC1 [] = some [] ∧
    attempt_to_reset_model_to_disk_state modelC1 [] ≠ none :=
  ⟨rfl, by intro hcontra; exact Option.noConfusion (Eq.trans (Eq.symm rfl) hcontra)⟩

/-- C1 (amended): reconciling the first scenario against the observed state mapping
key 5 to 9 returns the 1-layer durable model, and reconciling against the empty
observed state succeeds with the 0-layer model. -/
theorem C1_thm :
    attempt_to_reset_model_to_disk_state modelC1 [(5, 9)] = some modelC1durable ∧
    attempt_to_reset_model_to_disk_state modelC1 [] = some [] := ⟨rfl, rfl⟩

/-- C2 counterexample: the resolver returns a model although the observed state holds
key 2 with value 5 while the returned model's effective state has no key 2 (the
equality check skips keys no layer defines). -/
theorem C2_counterexample :
    attempt_to_reset_model_to_disk_state modelC2 stateC2 = some modelC2 ∧
    effStateOf modelC2 2 = none ∧
    buildExpected stateC2 2 = some 5 ∧ (2, 5) ∈ stateC2 :=
  ⟨rfl, rfl, rfl, by decide⟩

/-- Witness for C2 at a concrete run of the resolver. -/
theorem C2_witness : effStateOf modelC2 1 = buildExpected stateC2 1 :=
  C2_thm modelC2 stateC2 modelC2 rfl 1 (by decide) rfl

/-- C3 counterexample: reconciling the never-durable 1-layer scenario against the
observed state mapping key 3 to 1 fails, because the non-durable layer is dropped
without any equality check. -/
theorem C3_counterexample :
    attempt_to_reset_model_to_disk_state modelC3 [(3, 1)] = none := rfl

/-- C3 (amended): the never-durable 1-layer scenario reconciles against the empty
observed state with a 0-layer model, and reconciling against the state mapping key 3
to 1 returns nothing. -/
theorem C3_thm :
    attempt_to_reset_model_to_disk_state modelC3 [] = some [] ∧
    attempt_to_reset_model_to_disk_state modelC3 [(3, 1)] = none := ⟨rfl, rfl⟩

/-- Witness for C4 at a concrete matching truncation. -/
theorem C4_witness :
    ∃ r, attempt_to_reset_model_to_disk_state oneDurableLayerModel [(3, 1)] = some r ∧
      1 ≤ r.length :=
  C4_thm oneDurableLayerModel [(3, 1)] 1 (by decide)
    ⟨List.foldl writeOp emptyValues [(3, some 1)], true⟩ rfl rfl (by decide)

/-- Witness for C6 at a concrete model with one removed key and one required pair. -/
theorem C6_witness :
    [2] ∈ model_removed_content modelC6 ∧
    ([1], [7]) ∈ model_required_content modelC6 ∧ (([1], [7]).1 ≠ ([2] : List Nat)) := by
  have h1 : [2] ∈ model_removed_content modelC6 := by decide
  have h2 : ([1], [7]) ∈ model_required_content modelC6 := by decide
  exact ⟨h1, h2, (C6_thm modelC6).2 [2] h1 ([1], [7]) h2⟩

/-- C7 counterexample: two mark-durable calls around an already fully durable model
leave only one durable layer, so the durable count differs from the mark-durable
count capped at the layer count. -/
theorem C7_counterexample :
    countWritten (runActions [.batch [], .markDurable, .markDurable, .batch []]) = 1 ∧
    markCount [FuzzAction.batch [], .markDurable, .markDurable, .batch []] = 2 ∧
    (runActions [.batch [], .markDurable, .markDurable, .batch []]).length = 2 ∧
    countWritten (runActions [.batch [], .markDurable, .markDurable, .batch []]) ≠
      min (markCount [FuzzAction.batch [], .markDurable, .markDurable, .batch []])
        (runActions [.batch [], .markDurable, .markDurable, .batch []]).length := by
  refine ⟨rfl, rfl, rfl, by decide⟩

/-- Witness for C10 at a concrete successful reconciliation. -/
theorem C10_witness :
    ∃ l, (oneDurableLayerModel).getLast? = some l ∧ l.written = true :=
  C10_thm oneDurableLayerModel [(3, 1)] oneDurableLayerModel rfl (List.cons_ne_nil _ _)
